import Mathlib

/-!
Verification of the PubMed literature push pipeline.

This file gives a shallow embedding of the core algorithms of the
repository and proves properties about them:

* the citation reconciliation algorithm of
  `process_review_and_sort_articles` (main.py, lines 380-588):
  extraction of citation markers, first-occurrence deduplication,
  the old-to-new renumbering map, the selection and stamping of the
  cited articles, and the rewriting of markers in the body;
* the translation selection of `run_job` (main.py, lines 272-291);
* the daily guard `has_run_today` / `mark_today_as_run` and the
  control skeleton of `run_job` (main.py, lines 168-378);
* the mail account rotation `get_next_account` and the retry loop of
  `send_email` (src/email_sender.py, lines 41-109);
* the computed send interval of `load_config` (src/config.py,
  lines 391-394).

Machine integers of the Python source are modelled as `Nat`/`Int`
(no overflow is possible at the relevant sites), dictionaries as
association lists, in-place mutation of article records as explicit
state passing, and a raised Python exception as `none`, an
`Except PyExc` error carrying the exception class, or an explicit
error flag.
-/

namespace PubMedPush

/-- One retrieved publication record.  Of the fields built by
`search_articles` (src/pubmed_processor.py, lines 160-170) we keep a
representative identity field (`pmid`), one representative immutable
payload field (`title`), and the two fields mutated downstream:
`citation_index` (set by reconciliation) and `translated_abstract`
(set by translation).  Both start absent. -/
structure Article where
  pmid : Nat
  title : String
  citation_index : Option Nat := none
  translated_abstract : Option String := none
deriving Repr, DecidableEq

instance : Inhabited Article := ⟨{ pmid := 0, title := "" }⟩

/-- Python `article['citation_index'] = n` (main.py, lines 425 and 456). -/
def stamp (a : Article) (n : Nat) : Article := { a with citation_index := some n }

/-- Forget the `citation_index` field.  Used to state frame conditions:
two articles with the same `eraseCitation` image differ at most in
`citation_index`. -/
def eraseCitation (a : Article) : Article := { a with citation_index := none }

/-- Token-level model of the review body: a body is a sequence of plain
text runs and bracketed citation markers.  A marker `[n1,n2,...]` is the
text matched by the regex `\[(\d+(?:\s*,\s*\d+)*)\]` of main.py line 394,
already split on commas and parsed to integers (each `\d+` group is a
nonnegative integer; in particular `[0]` parses to the integer 0). -/
inductive Chunk where
  | text (s : String)
  | marker (ns : List Nat)
deriving Repr, DecidableEq

/-- Extraction of `citations_in_order` (main.py, lines 394-399): all
integers of all markers, flattened in left-to-right order of appearance,
preserving within-marker order. -/
def citations_in_order : List Chunk → List Nat
  | [] => []
  | Chunk.text _ :: rest => citations_in_order rest
  | Chunk.marker ns :: rest => ns ++ citations_in_order rest

/-- The deduplication loop of main.py lines 429-432:

```python
unique_ordered_old_refs = []
for c in citations_in_order:
    if c not in unique_ordered_old_refs:
        unique_ordered_old_refs.append(c)
```

with `acc` the list built so far. -/
def dedupFirstLoop (acc : List Nat) : List Nat → List Nat
  | [] => acc
  | c :: rest =>
    if c ∈ acc then dedupFirstLoop acc rest else dedupFirstLoop (acc ++ [c]) rest

/-- Python `unique_ordered_old_refs` (main.py, lines 429-432). -/
def unique_ordered_old_refs (citations : List Nat) : List Nat :=
  dedupFirstLoop [] citations

/-- Deduplication in the words of the specification: keep the first
occurrence of every value, delete the later duplicates, preserve order.
Stated independently of the source loop so that the two can be proved
equal. -/
def dedupFirstOccur : List Nat → List Nat
  | [] => []
  | c :: rest => c :: dedupFirstOccur (rest.filter fun x => decide (x ≠ c))
termination_by l => l.length
decreasing_by
  simp only [List.length_cons]
  exact Nat.lt_succ_of_le (List.length_filter_le _ rest)

/-- Helper for the dict comprehension of main.py line 446, carrying the
running `enumerate` counter `k`. -/
def oldToNewMapFrom (k : Nat) : List Nat → List (Nat × Nat)
  | [] => []
  | old :: rest => (old, k + 1) :: oldToNewMapFrom (k + 1) rest

/-- Python `old_to_new_map = {old: new + 1 for new, old in
enumerate(unique_ordered_old_refs)}` (main.py, line 446), as an
association list.  The keys fed to it are always deduplicated, so the
first-match semantics of `List.lookup` agrees with the Python dict. -/
def old_to_new_map (refs : List Nat) : List (Nat × Nat) :=
  oldToNewMapFrom 0 refs

/-- State threaded through the selection loop of main.py lines 450-461:
the (mutable) original article store, the `sorted_articles` accumulator
and the `skipped_articles` accumulator. -/
structure ReconcileState where
  articles : List Article
  sorted : List Article
  skipped : List Nat
deriving Repr, DecidableEq

/-- The selection loop of main.py lines 450-461:

```python
for old_idx in unique_ordered_old_refs:
    if 0 < old_idx <= len(original_articles):
        article = original_articles[old_idx - 1]
        article['citation_index'] = old_to_new_map[old_idx]
        sorted_articles.append(article)
    else:
        skipped_articles.append(old_idx)
```

The in-place field assignment is modelled by writing the stamped record
back into the store at the same position.  The `getD` defaults are never
used: the range guard keeps the index valid, and every iterated value is
a key of the map. -/
def sortLoop (m : List (Nat × Nat)) : ReconcileState → List Nat → ReconcileState
  | r, [] => r
  | r, old :: rest =>
    if 0 < old ∧ old ≤ r.articles.length then
      let a2 := stamp (r.articles.getD (old - 1) default) ((m.lookup old).getD 0)
      sortLoop m ⟨r.articles.set (old - 1) a2, r.sorted ++ [a2], r.skipped⟩ rest
    else
      sortLoop m ⟨r.articles, r.sorted, r.skipped ++ [old]⟩ rest

/-- The range guard `0 < old_idx <= len(original_articles)` of main.py
line 454, as a Boolean predicate on the reference value for a given
article count `n`. -/
def inRangeB (n o : Nat) : Bool := decide (0 < o ∧ o ≤ n)

/-- Steps 3-5 of `process_review_and_sort_articles` (main.py,
lines 428-461) on an already extracted citation sequence. -/
def processCitations (citations : List Nat) (original : List Article) : ReconcileState :=
  let refs := unique_ordered_old_refs citations
  sortLoop (old_to_new_map refs) ⟨original, [], []⟩ refs

/-- Helper for `for i, article in enumerate(original_articles):
article['citation_index'] = i + 1` (main.py, lines 424-425 and 586-587),
carrying the running counter `k`. -/
def stampAllFrom (k : Nat) : List Article → List Article
  | [] => []
  | a :: rest => stamp a (k + 1) :: stampAllFrom (k + 1) rest

/-- Every article stamped with its 1-based original position. -/
def stampAll (l : List Article) : List Article := stampAllFrom 0 l

/-- Python `replace_citation` (main.py, lines 551-558) applied to the
parsed contents of one marker: every number is sent through
`old_to_new_map.get(old_idx, old_idx)`, i.e. mapped if present and kept
unchanged otherwise. -/
def replace_citation (m : List (Nat × Nat)) (ns : List Nat) : List Nat :=
  ns.map fun old => (m.lookup old).getD old

/-- The `re.sub` of main.py line 560: rewrite every marker of the body
through `replace_citation`; plain text is untouched. -/
def rewriteBody (m : List (Nat × Nat)) (body : List Chunk) : List Chunk :=
  body.map fun c =>
    match c with
    | Chunk.text s => Chunk.text s
    | Chunk.marker ns => Chunk.marker (replace_citation m ns)

/-- Result of `process_review_and_sort_articles`: the rewritten body,
the original article list after its in-place mutations, and the returned
`sorted_articles`. -/
structure ReviewResult where
  body : List Chunk
  articles : List Article
  sorted : List Article
deriving Repr, DecidableEq

/-- Python `process_review_and_sort_articles` (main.py, lines 380-588)
on the token-level body (the splitting-off of the references section,
main.py line 390, happens before the `Chunk` list is formed).  If no
citation is found the body is returned as is and every article receives
its original position as `citation_index` (lines 421-426); the returned
list is the original (mutated) list itself.  Otherwise steps 3-6 run. -/
def process_review_and_sort_articles (body : List Chunk) (original : List Article) :
    ReviewResult :=
  let citations := citations_in_order body
  if citations = [] then
    ⟨body, stampAll original, stampAll original⟩
  else
    let refs := unique_ordered_old_refs citations
    let m := old_to_new_map refs
    let r := sortLoop m ⟨original, [], []⟩ refs
    ⟨rewriteBody m body, r.articles, r.sorted⟩

/-- The exception fallback of `process_review_and_sort_articles`
(main.py, lines 582-588): return the body, stamp every article with its
original position, return the original list. -/
def process_review_fallback (body : List Chunk) (original : List Article) :
    ReviewResult :=
  ⟨body, stampAll original, stampAll original⟩

/-- Python list indexing `l[i]` with an `Int` index: a negative index
counts from the end of the list, an index out of range on either side
raises (modelled as `none`).  Used by `articles[idx - 1]` in `run_job`
(main.py, line 283), where `idx = 0` yields `articles[-1]`, the last
element. -/
def pyIdx (l : List Article) (i : Int) : Option Article :=
  if 0 ≤ i then l[i.toNat]?
  else if 0 ≤ i + l.length then l[(i + l.length).toNat]?
  else none

/-- The translation deduplication loop of `run_job` (main.py,
lines 275-280):

```python
for idx in cited_indices:
    if idx not in seen_indices and idx <= len(articles):
        unique_cited_indices.append(idx)
        seen_indices.add(idx)
```

Note the guard checks only `idx <= len(articles)`; there is no lower
bound check. -/
def uniqueCitedLoop (n : Nat) (acc : List Nat) : List Nat → List Nat
  | [] => acc
  | idx :: rest =>
    if idx ∉ acc ∧ idx ≤ n then uniqueCitedLoop n (acc ++ [idx]) rest
    else uniqueCitedLoop n acc rest

/-- Python `unique_cited_indices` of `run_job` (main.py, lines 275-280). -/
def unique_cited_indices (citedIndices : List Nat) (n : Nat) : List Nat :=
  uniqueCitedLoop n [] citedIndices

/-- Python `cited_articles = [articles[i-1] for i in unique_cited_indices]`
(main.py, line 283): the list handed to `translate_abstracts_in_batch`.
The subtraction happens in `Int` as in Python, so `i = 0` indexes with
`-1`. -/
def cited_articles (citedIndices : List Nat) (articles : List Article) :
    List (Option Article) :=
  (unique_cited_indices citedIndices articles.length).map fun i =>
    pyIdx articles ((i : Int) - 1)

/-- The Python exception classes the marker code can raise: `json.load`
raises `json.JSONDecodeError`; dict indexing raises `KeyError` (missing
key) or `TypeError` (non-dict operand); `datetime.strptime` raises
`TypeError` (non-string argument) or `ValueError` (string of the wrong
format); file input and output raise `OSError`. -/
inductive PyExc where
  | jsonDecodeError
  | keyError
  | valueError
  | osError
  | typeError
deriving Repr, DecidableEq

/-- The exception tuple of the `except` clause at main.py line 182:
`(json.JSONDecodeError, KeyError, ValueError, OSError)`.  `TypeError` is
not in the tuple. -/
def caughtByMarkerHandler : PyExc → Bool
  | PyExc.jsonDecodeError => true
  | PyExc.keyError => true
  | PyExc.valueError => true
  | PyExc.osError => true
  | PyExc.typeError => false

/-- A JSON value in field position, as the marker code observes it: the
code passes the field value only to
`datetime.strptime(value, '%Y-%m-%d')` (main.py, line 178), which parses
a well-formed date string, raises `ValueError` on any other string, and
raises `TypeError` on every non-string (number, list, object, boolean,
null).  String values are therefore represented by that outcome, with
dates as abstract day numbers. -/
inductive JsonField where
  | dateStr (d : Nat)
  | badStr
  | nonStr
deriving Repr, DecidableEq

/-- A parsed JSON document: an object, or any non-object value (list,
string, number, boolean, null).  The code's only use of the document is
the string-keyed indexing `marker_data['last_run_date']` (main.py,
line 178), which raises `TypeError` on every non-object operand. -/
inductive JsonDoc where
  | dict (fields : List (String × JsonField))
  | nonDict
deriving Repr, DecidableEq

/-- State of the daily run marker file as `has_run_today` reads it:
absent (the `os.path.exists` test of line 171 fails), present but
unreadable (`open`/read raises `OSError`), present but not valid JSON
(`json.load` raises `json.JSONDecodeError`), or parsed to a JSON
document. -/
inductive MarkerFile where
  | absent
  | unreadable
  | invalidJson
  | parsed (doc : JsonDoc)
deriving Repr, DecidableEq

/-- Python `marker_data['last_run_date']` (main.py, line 178): on a dict,
return the entry or raise `KeyError`; on any non-dict, raise `TypeError`
(e.g. "list indices must be integers"). -/
def getItem (doc : JsonDoc) (key : String) : Except PyExc JsonField :=
  match doc with
  | JsonDoc.nonDict => Except.error PyExc.typeError
  | JsonDoc.dict fields =>
    match fields.lookup key with
    | some v => Except.ok v
    | none => Except.error PyExc.keyError

/-- Python `datetime.strptime(value, '%Y-%m-%d').date()` (main.py,
line 178) on a JSON field value: a parseable date string yields its
date, any other string raises `ValueError`, a non-string raises
`TypeError` ("strptime() argument 1 must be str"). -/
def strptimeField : JsonField → Except PyExc Nat
  | JsonField.dateStr d => Except.ok d
  | JsonField.badStr => Except.error PyExc.valueError
  | JsonField.nonStr => Except.error PyExc.typeError

/-- The `except` clause of main.py lines 182-184 wrapped around the
result of the `try` body: an exception in the caught tuple yields
`False`, any other exception propagates to the caller. -/
def markerHandle (r : Except PyExc Bool) : Except PyExc Bool :=
  match r with
  | Except.ok b => Except.ok b
  | Except.error e =>
    if caughtByMarkerHandler e then Except.ok false else Except.error e

/-- Python `has_run_today` (main.py, lines 168-184).  An absent file
returns `False` before the `try` (lines 171-172).  Inside the `try`, an
unreadable file raises `OSError` and unparseable JSON raises
`json.JSONDecodeError`; otherwise `marker_data['last_run_date']` is
fetched, parsed with `strptime`, and compared with today.  The `except`
clause turns the caught exception kinds into `False`; every other
exception - in particular the `TypeError` of a non-dict document or a
non-string date field - propagates to the caller. -/
def has_run_today (m : MarkerFile) (today : Nat) : Except PyExc Bool :=
  match m with
  | MarkerFile.absent => Except.ok false
  | MarkerFile.unreadable => markerHandle (Except.error PyExc.osError)
  | MarkerFile.invalidJson => markerHandle (Except.error PyExc.jsonDecodeError)
  | MarkerFile.parsed doc =>
    markerHandle
      (match getItem doc "last_run_date" with
       | Except.error e => Except.error e
       | Except.ok v =>
         match strptimeField v with
         | Except.error e => Except.error e
         | Except.ok d => Except.ok (d == today))

/-- The marker document a successful `mark_today_as_run` writes
(main.py, lines 189-196): `last_run_date` holds
`date.today().isoformat()`, the `YYYY-MM-DD` string `strptime` parses
back to the same date, and `timestamp` holds
`datetime.now().isoformat()`, a string `strptime('%Y-%m-%d')` rejects
(trailing time part). -/
def markerWritten (today : Nat) : MarkerFile :=
  MarkerFile.parsed (JsonDoc.dict
    [("last_run_date", JsonField.dateStr today), ("timestamp", JsonField.badStr)])

/-- Python `mark_today_as_run` (main.py, lines 186-199): attempt to
write today's marker document.  A failing write raises `OSError`, which
the function itself catches and only logs (lines 197-199): the marker
file keeps its previous state and the caller is told nothing.
`writeOk` says whether the filesystem write succeeds. -/
def mark_today_as_run (prev : MarkerFile) (today : Nat) (writeOk : Bool) : MarkerFile :=
  if writeOk then markerWritten today else prev

/-- The externally visible provider calls a keyword's processing makes
(PubMed search, LLM calls, report mails). -/
inductive Action where
  | search (kw : Nat)
  | llm (kw : Nat)
  | mail (kw : Nat)
deriving Repr, DecidableEq

/-- Outcome of the body of the keyword loop for one keyword: it either
runs to completion or raises a Python exception. -/
inductive KwOutcome where
  | ok
  | exn
deriving Repr, DecidableEq

/-- Result of the keyword loop: the keywords whose processing completed,
the provider calls performed, and whether an exception escaped the loop. -/
structure LoopResult where
  processed : List Nat
  actions : List Action
  errored : Bool
deriving Repr, DecidableEq

/-- The keyword loop of `run_job` (main.py, lines 253-333).  `behave k`
gives the provider calls keyword `k` performs and whether its processing
raises.  The loop body contains no `try`; the only handler is the
`except` of line 335, outside the loop, so an exception raised while
processing one keyword leaves the loop at once and the remaining
keywords are not visited. -/
def keywordLoop (behave : Nat → List Action × KwOutcome) :
    List Nat → List Nat → List Action → LoopResult
  | [], ps, as => ⟨ps, as, false⟩
  | k :: rest, ps, as =>
    match (behave k).2 with
    | KwOutcome.ok => keywordLoop behave rest (ps ++ [k]) (as ++ (behave k).1)
    | KwOutcome.exn => ⟨ps, as ++ (behave k).1, true⟩

/-- Result of one `run_job` call that returns normally: the provider
calls made, the marker file state afterwards, the `error_occurred` flag,
and whether `mark_today_as_run` was invoked (invoked is not the same as
written: its own failing write is swallowed). -/
structure RunResult where
  actions : List Action
  marker : MarkerFile
  errorOccurred : Bool
  marked : Bool
deriving Repr, DecidableEq

/-- Control skeleton of `run_job` (main.py, lines 214-378).  The guard
call at line 219 sits BEFORE the `try` of line 229, so an exception
escaping `has_run_today` propagates out of `run_job`.  A true guard
returns at once with no provider calls.  Otherwise the keyword loop runs
under the `try`/`except` of lines 229-337 and, in `finally`,
`mark_today_as_run` is invoked exactly when no error occurred
(lines 344-345); `writeOk` says whether its filesystem write succeeds
(a failing write is swallowed inside `mark_today_as_run`). -/
def run_job (m : MarkerFile) (today : Nat) (behave : Nat → List Action × KwOutcome)
    (keywords : List Nat) (writeOk : Bool) : Except PyExc RunResult :=
  match has_run_today m today with
  | Except.error e => Except.error e
  | Except.ok true => Except.ok ⟨[], m, false, false⟩
  | Except.ok false =>
    let lr := keywordLoop behave keywords [] []
    if lr.errored then Except.ok ⟨lr.actions, m, true, false⟩
    else Except.ok ⟨lr.actions, mark_today_as_run m today writeOk, false, true⟩

/-- State of the `EmailSender`: the configured account list (accounts
identified by opaque ids) and the round-robin cursor
`current_account_index`. -/
structure SenderState where
  accounts : List Nat
  cursor : Nat
deriving Repr, DecidableEq

/-- Python `EmailSender.get_next_account` (src/email_sender.py,
lines 41-50): raise (`none`) when no account is configured, otherwise
return the account at the current cursor and advance the cursor by one
modulo the account count.  An out-of-range cursor (impossible under the
class invariant) would also raise, which the `none` of the lookup
covers. -/
def get_next_account (st : SenderState) : Option (Nat × SenderState) :=
  match st.accounts[st.cursor]? with
  | some a => some (a, ⟨st.accounts, (st.cursor + 1) % st.accounts.length⟩)
  | none => none

/-- Modelled from the spec: account selection in which the dispatcher
first advances the cursor as `cursor = (cursor + 1) mod account_count`
and then uses the account at the new cursor.  Stated only to be compared
with `get_next_account`, which is the code's behavior. -/
def getNextAccountSpec (st : SenderState) : Option (Nat × SenderState) :=
  let c := (st.cursor + 1) % st.accounts.length
  match st.accounts[c]? with
  | some a => some (a, ⟨st.accounts, c⟩)
  | none => none

/-- The account selection of `send_email` (src/email_sender.py,
lines 56-59): an explicit in-range index is used directly and leaves the
cursor untouched; otherwise (no index, or an out-of-range one) the
round-robin `get_next_account` is used. -/
def selectAccount (st : SenderState) (accountIndex : Option Int) :
    Option (Nat × SenderState) :=
  match accountIndex with
  | some i =>
    if 0 ≤ i ∧ i < (st.accounts.length : Int) then
      some (st.accounts.getD i.toNat 0, st)
    else get_next_account st
  | none => get_next_account st

/-- Iterated implicit selection: `k` successive sends without an explicit
account index, collecting the accounts used. -/
def selectMany (st : SenderState) : Nat → Option (List Nat × SenderState)
  | 0 => some ([], st)
  | k + 1 =>
    match get_next_account st with
    | none => none
    | some (a, st1) =>
      match selectMany st1 k with
      | none => none
      | some (as, st2) => some (a :: as, st2)

/-- What one delivery attempt of the retry loop observes: the SMTP
transaction succeeds, raises `smtplib.SMTPConnectError` with a status
code, or raises any other exception. -/
inductive AttemptOutcome where
  | success
  | connectError (code : Nat)
  | otherError
deriving Repr, DecidableEq

/-- How the retry loop of `send_email` ends. -/
inductive SendResult where
  | sent
  | failedConnect
  | failedOther
  | exhausted
deriving Repr, DecidableEq

/-- One executed attempt: the account it used and whether the
`time.sleep(retry_delay)` of line 95 ran after it. -/
structure AttemptRecord where
  account : Nat
  slept : Bool
deriving Repr, DecidableEq

/-- The retry loop of `send_email` (src/email_sender.py, lines 73-109):
`for attempt in range(max_retries)`, where attempt `attempt` observes
`f attempt`.  Success returns; `SMTPConnectError` with status 451 while
`attempt < max_retries - 1` sleeps and retries, any other
`SMTPConnectError` logs and returns; any other exception logs and
returns at once.  Falling off the loop logs the final failure and
returns (`exhausted`).  `fuel` counts the remaining loop iterations. -/
def sendGo (acct : Nat) (f : Nat → AttemptOutcome) (maxRetries : Nat) :
    Nat → Nat → List AttemptRecord × SendResult
  | _, 0 => ([], SendResult.exhausted)
  | attempt, fuel + 1 =>
    match f attempt with
    | AttemptOutcome.success => ([⟨acct, false⟩], SendResult.sent)
    | AttemptOutcome.connectError code =>
      if code = 451 ∧ attempt < maxRetries - 1 then
        let r := sendGo acct f maxRetries (attempt + 1) fuel
        (⟨acct, true⟩ :: r.1, r.2)
      else ([⟨acct, false⟩], SendResult.failedConnect)
    | AttemptOutcome.otherError => ([⟨acct, false⟩], SendResult.failedOther)

/-- Python `EmailSender.send_email` (src/email_sender.py, lines 52-109):
select the account (this can raise `ValueError`, modelled as `none`,
when no account is configured), then run the retry loop with that fixed
account.  On `some` the caller gets the selected account, the executed
attempts, the loop result and the updated sender state; the message
arguments (recipient, subject, body) do not influence the control
flow. -/
def send_email (st : SenderState) (accountIndex : Option Int)
    (f : Nat → AttemptOutcome) (maxRetries : Nat) :
    Option (Nat × List AttemptRecord × SendResult × SenderState) :=
  match selectAccount st accountIndex with
  | none => none
  | some (acct, st1) =>
    some (acct, (sendGo acct f maxRetries 0 maxRetries).1,
      (sendGo acct f maxRetries 0 maxRetries).2, st1)

/-- Python `calculated_interval = max(60, int((base_minutes * 60) /
len(accounts)))` (src/config.py, line 393).  Python truncates the float
quotient toward zero; for the nonnegative integers admitted by
`validate_smtp_config` this is exact floor division, embedded as `Nat`
division. -/
def calculated_interval (base_minutes accountCount : Nat) : Nat :=
  max 60 (base_minutes * 60 / accountCount)

/-- A sample article with the given pmid, for the concrete scenarios. -/
def sampleArticle (i : Nat) : Article := { pmid := i, title := "" }

/-- Five sample articles, as in Scenario A of the specification. -/
def arts5 : List Article :=
  [sampleArticle 1, sampleArticle 2, sampleArticle 3, sampleArticle 4, sampleArticle 5]

/-! ### Properties of the deduplication step -/

/-- The source loop, started from any accumulator, appends the
first-occurrence deduplication of the not-yet-seen values. -/
lemma dedupFirstLoop_eq (l : List Nat) : ∀ acc : List Nat,
    dedupFirstLoop acc l = acc ++ dedupFirstOccur (l.filter fun x => decide (x ∉ acc)) := by
  induction l with
  | nil => intro acc; simp [dedupFirstLoop, dedupFirstOccur]
  | cons c rest ih =>
    intro acc
    by_cases hc : c ∈ acc
    · have hfc : (decide (c ∉ acc)) = false := by simp [hc]
      simp only [dedupFirstLoop, if_pos hc, List.filter_cons, hfc, Bool.false_eq_true,
        if_false]
      exact ih acc
    · have hfc : (decide (c ∉ acc)) = true := by simp [hc]
      simp only [dedupFirstLoop, if_neg hc, List.filter_cons, hfc, if_true]
      rw [ih (acc ++ [c]), dedupFirstOccur, List.filter_filter]
      have hpt : ∀ x ∈ rest,
          (decide (x ∉ acc ++ [c])) = (decide (x ≠ c) && decide (x ∉ acc)) := by
        intro x _
        by_cases h1 : x = c <;> by_cases h2 : x ∈ acc <;> simp [h1, h2]
      rw [List.filter_congr hpt, List.append_assoc, List.singleton_append]

/-- Membership in the loop result: exactly the seen values plus the
remaining input. -/
lemma mem_dedupFirstLoop (l : List Nat) : ∀ acc x,
    x ∈ dedupFirstLoop acc l ↔ x ∈ acc ∨ x ∈ l := by
  induction l with
  | nil => intro acc x; simp [dedupFirstLoop]
  | cons c rest ih =>
    intro acc x
    by_cases hc : c ∈ acc
    · simp only [dedupFirstLoop, if_pos hc, ih, List.mem_cons]
      constructor
      · rintro (h | h)
        · exact Or.inl h
        · exact Or.inr (Or.inr h)
      · rintro (h | h | h)
        · exact Or.inl h
        · exact Or.inl (h ▸ hc)
        · exact Or.inr h
    · simp only [dedupFirstLoop, if_neg hc, ih, List.mem_append, List.mem_singleton,
        List.mem_cons]
      tauto

/-- The loop never records a value twice. -/
lemma nodup_dedupFirstLoop (l : List Nat) : ∀ acc : List Nat,
    acc.Nodup → (dedupFirstLoop acc l).Nodup := by
  induction l with
  | nil => intro acc h; simpa [dedupFirstLoop] using h
  | cons c rest ih =>
    intro acc hacc
    by_cases hc : c ∈ acc
    · simpa only [dedupFirstLoop, if_pos hc] using ih acc hacc
    · have : (acc ++ [c]).Nodup := by
        simp [List.nodup_append, hacc, hc]
      simpa only [dedupFirstLoop, if_neg hc] using ih (acc ++ [c]) this

/-- Python `unique_ordered_old_refs` is first-occurrence deduplication. -/
lemma unique_ordered_old_refs_eq (citations : List Nat) :
    unique_ordered_old_refs citations = dedupFirstOccur citations := by
  rw [unique_ordered_old_refs, dedupFirstLoop_eq]
  have : citations.filter (fun x => decide (x ∉ ([] : List Nat))) = citations := by
    rw [List.filter_eq_self]; intro a _; simp
  rw [this, List.nil_append]

/-- Membership in `unique_ordered_old_refs`. -/
lemma mem_unique_ordered_old_refs (citations : List Nat) (x : Nat) :
    x ∈ unique_ordered_old_refs citations ↔ x ∈ citations := by
  rw [unique_ordered_old_refs, mem_dedupFirstLoop]
  simp

/-- The deduplicated reference list has no duplicates. -/
lemma nodup_unique_ordered_old_refs (citations : List Nat) :
    (unique_ordered_old_refs citations).Nodup :=
  nodup_dedupFirstLoop citations [] List.nodup_nil

/-! ### Properties of the old-to-new map -/

/-- Looking up the entry at a given rank of a duplicate-free key list
yields that rank (shifted by the enumeration offset), plus one. -/
lemma lookup_oldToNewMapFrom (refs : List Nat) : ∀ k rank old, refs.Nodup →
    refs[rank]? = some old →
    (oldToNewMapFrom k refs).lookup old = some (k + rank + 1) := by
  induction refs with
  | nil => intro k rank old _ h; simp at h
  | cons r rest ih =>
    intro k rank old hnd h
    match rank with
    | 0 =>
      simp only [List.getElem?_cons_zero, Option.some_inj] at h
      subst h
      simp [oldToNewMapFrom, List.lookup]
    | rank + 1 =>
      simp only [List.getElem?_cons_succ] at h
      have hmem : old ∈ rest := List.getElem?_mem h
      have hne : (old == r) = false := by
        have : old ≠ r := by
          intro he; exact (List.nodup_cons.mp hnd).1 (he ▸ hmem)
        simp [this]
      simp only [oldToNewMapFrom, List.lookup, hne]
      have := ih (k + 1) rank old (List.nodup_cons.mp hnd).2 h
      rw [this]
      congr 1
      omega

/-- Every member of the key list has a map entry. -/
lemma lookup_oldToNewMapFrom_isSome (refs : List Nat) : ∀ k old, old ∈ refs →
    ((oldToNewMapFrom k refs).lookup old).isSome := by
  induction refs with
  | nil => intro k old h; simp at h
  | cons r rest ih =>
    intro k old h
    by_cases he : old = r
    · subst he; simp [oldToNewMapFrom, List.lookup]
    · have hmem : old ∈ rest := by
        rcases List.mem_cons.mp h with h1 | h1
        · exact absurd h1 he
        · exact h1
      have hne : (old == r) = false := by simp [he]
      simp only [oldToNewMapFrom, List.lookup, hne]
      exact ih (k + 1) old hmem

/-! ### Properties of the default stamping -/

/-- Element description of `stampAllFrom`. -/
lemma getElem?_stampAllFrom (l : List Article) : ∀ k i,
    (stampAllFrom k l)[i]? = (l[i]?).map fun a => stamp a (k + i + 1) := by
  induction l with
  | nil => intro k i; simp [stampAllFrom]
  | cons a rest ih =>
    intro k i
    match i with
    | 0 => simp [stampAllFrom]
    | i + 1 =>
      simp only [stampAllFrom, List.getElem?_cons_succ, ih (k + 1) i]
      simp only [show k + 1 + i + 1 = k + (i + 1) + 1 from by omega]

/-- Element description of `stampAll`: position `i` holds the original
article stamped with `i + 1`. -/
lemma getElem?_stampAll (l : List Article) (i : Nat) :
    (stampAll l)[i]? = (l[i]?).map fun a => stamp a (i + 1) := by
  rw [stampAll, getElem?_stampAllFrom]
  simp

/-- Stamping keeps the list length. -/
lemma length_stampAll (l : List Article) : (stampAll l).length = l.length := by
  have : ∀ k (l : List Article), (stampAllFrom k l).length = l.length := by
    intro k l
    induction l generalizing k with
    | nil => simp [stampAllFrom]
    | cons a rest ih => simp [stampAllFrom, ih]
  exact this 0 l

/-- Stamping changes only the `citation_index` field. -/
lemma eraseCitation_stamp (a : Article) (n : Nat) :
    eraseCitation (stamp a n) = eraseCitation a := rfl

/-! ### Properties of the selection loop -/

/-- The selection loop keeps the length of the article store. -/
lemma sortLoop_length (m : List (Nat × Nat)) (refs : List Nat) : ∀ (r : ReconcileState),
    (sortLoop m r refs).articles.length = r.articles.length := by
  induction refs with
  | nil => intro r; simp [sortLoop]
  | cons old rest ih =>
    intro r
    by_cases h : 0 < old ∧ old ≤ r.articles.length
    · simp only [sortLoop, if_pos h]
      rw [ih]
      simp
    · simp only [sortLoop, if_neg h]
      exact ih _

/-- The selection loop changes the article store only in the
`citation_index` fields: erased positionwise, the store is unchanged. -/
lemma sortLoop_frame (m : List (Nat × Nat)) (refs : List Nat) :
    ∀ (r : ReconcileState) (i : Nat),
    ((sortLoop m r refs).articles[i]?).map eraseCitation
      = (r.articles[i]?).map eraseCitation := by
  induction refs with
  | nil => intro r i; simp [sortLoop]
  | cons old rest ih =>
    intro r i
    by_cases h : 0 < old ∧ old ≤ r.articles.length
    · have hlt : old - 1 < r.articles.length := by omega
      simp only [sortLoop, if_pos h]
      rw [ih]
      by_cases hi : old - 1 = i
      · subst hi
        rw [List.getElem?_set_self hlt, List.getElem?_eq_getElem hlt]
        simp [List.getD_eq_getElem?_getD, List.getElem?_eq_getElem hlt,
          eraseCitation_stamp]
      · rw [List.getElem?_set_ne hi]
    · simp only [sortLoop, if_neg h]
      exact ih _ i

/-- Description of `sorted_articles`: as long as the store still agrees
with the original list at every position the remaining (duplicate-free)
references can read, the loop appends, for each in-range reference in
order, the original article at that position stamped with its map
value. -/
lemma sortLoop_sorted (m : List (Nat × Nat)) (refs : List Nat) :
    ∀ (r : ReconcileState) (original : List Article),
    r.articles.length = original.length →
    refs.Nodup →
    (∀ o ∈ refs, 0 < o → r.articles[o - 1]? = original[o - 1]?) →
    (sortLoop m r refs).sorted
      = r.sorted ++ (refs.filter (inRangeB original.length)).map
          (fun o => stamp ((original[o - 1]?).getD default) ((m.lookup o).getD 0)) := by
  induction refs with
  | nil => intro r original _ _ _; simp [sortLoop]
  | cons old rest ih =>
    intro r original hlen hnd hagree
    have hold : old ∈ old :: rest := List.mem_cons_self old rest
    by_cases h : 0 < old ∧ old ≤ r.articles.length
    · have hlt : old - 1 < r.articles.length := by omega
      have hin : inRangeB original.length old = true := by
        rw [inRangeB, decide_eq_true_iff]
        omega
      have hval : r.articles.getD (old - 1) default
          = (original[old - 1]?).getD default := by
        rw [List.getD_eq_getElem?_getD, hagree old hold h.1]
      simp only [sortLoop, if_pos h, List.filter_cons, hin, if_true, List.map_cons]
      rw [ih _ original (by simp [hlen]) (List.nodup_cons.mp hnd).2 ?_, hval]
      · simp
      · intro o ho hpos
        have hne : o - 1 ≠ old - 1 := by
          have : o ≠ old := fun he => (List.nodup_cons.mp hnd).1 (he ▸ ho)
          omega
        rw [List.getElem?_set_ne (fun he => hne he.symm)]
        exact hagree o (List.mem_cons_of_mem _ ho) hpos
    · have hin : inRangeB original.length old = false := by
        rw [inRangeB, decide_eq_false_iff_not]
        omega
      simp only [sortLoop, if_neg h, List.filter_cons, hin, Bool.false_eq_true, if_false]
      exact ih _ original hlen (List.nodup_cons.mp hnd).2
        (fun o ho hpos => hagree o (List.mem_cons_of_mem _ ho) hpos)

/-- Description of `skipped_articles`: the out-of-range references in
order. -/
lemma sortLoop_skipped (m : List (Nat × Nat)) (refs : List Nat) :
    ∀ (r : ReconcileState) (n : Nat),
    r.articles.length = n →
    (sortLoop m r refs).skipped = r.skipped ++ refs.filter (fun o => !(inRangeB n o)) := by
  induction refs with
  | nil => intro r n _; simp [sortLoop]
  | cons old rest ih =>
    intro r n hlen
    by_cases h : 0 < old ∧ old ≤ r.articles.length
    · have hin : (!(inRangeB n old)) = false := by
        simp only [inRangeB, Bool.not_eq_false', decide_eq_true_iff]
        omega
      simp only [sortLoop, if_pos h, List.filter_cons, hin, Bool.false_eq_true, if_false]
      exact ih _ n (by simp [hlen])
    · have hin : (!(inRangeB n old)) = true := by
        simp only [inRangeB, Bool.not_eq_true', decide_eq_false_iff_not]
        omega
      simp only [sortLoop, if_neg h, List.filter_cons, hin, if_true]
      rw [ih ⟨r.articles, r.sorted, r.skipped ++ [old]⟩ n hlen]
      simp

/-- Every article the loop places into `sorted_articles` is (after the
loop) an element of the article store itself: the loop appends the very
record it wrote back, and, the references being duplicate-free, no later
iteration overwrites that position. -/
lemma sortLoop_mem (m : List (Nat × Nat)) (refs : List Nat) :
    ∀ (r : ReconcileState), refs.Nodup →
    (∀ a ∈ r.sorted, ∃ j, r.articles[j]? = some a ∧ ∀ o ∈ refs, 0 < o → o - 1 ≠ j) →
    ∀ a ∈ (sortLoop m r refs).sorted, a ∈ (sortLoop m r refs).articles := by
  induction refs with
  | nil =>
    intro r _ hinv a ha
    simp only [sortLoop] at ha ⊢
    obtain ⟨j, hj, -⟩ := hinv a ha
    exact List.getElem?_mem hj
  | cons old rest ih =>
    intro r hnd hinv
    by_cases h : 0 < old ∧ old ≤ r.articles.length
    · have hlt : old - 1 < r.articles.length := by omega
      simp only [sortLoop, if_pos h]
      apply ih _ (List.nodup_cons.mp hnd).2
      intro a ha
      rcases List.mem_append.mp ha with ha1 | ha1
      · obtain ⟨j, hj, hcond⟩ := hinv a ha1
        refine ⟨j, ?_, fun o ho hpos => hcond o (List.mem_cons_of_mem _ ho) hpos⟩
        rw [List.getElem?_set_ne ?_]
        · exact hj
        · exact hcond old (List.mem_cons_self old rest) h.1
      · have ha2 : a = stamp (r.articles.getD (old - 1) default) ((m.lookup old).getD 0) := by
          simpa using ha1
        refine ⟨old - 1, ?_, ?_⟩
        · rw [ha2, List.getElem?_set_self hlt]
        · intro o ho hpos
          have : o ≠ old := fun he => (List.nodup_cons.mp hnd).1 (he ▸ ho)
          omega
    · simp only [sortLoop, if_neg h]
      apply ih _ (List.nodup_cons.mp hnd).2
      intro a ha
      obtain ⟨j, hj, hcond⟩ := hinv a ha
      exact ⟨j, hj, fun o ho hpos => hcond o (List.mem_cons_of_mem _ ho) hpos⟩

/-! ### Properties of the keyword loop -/

/-- The keyword loop processes exactly the longest prefix of keywords
whose body completes, and reports an error exactly when some keyword's
body raises. -/
lemma keywordLoop_spec (behave : Nat → List Action × KwOutcome) (ks : List Nat) :
    ∀ (ps : List Nat) (acts : List Action),
    (keywordLoop behave ks ps acts).processed
        = ps ++ ks.takeWhile (fun k => decide ((behave k).2 = KwOutcome.ok)) ∧
    (keywordLoop behave ks ps acts).errored
        = ks.any (fun k => decide ((behave k).2 = KwOutcome.exn)) := by
  induction ks with
  | nil => intro ps acts; simp [keywordLoop]
  | cons k rest ih =>
    intro ps acts
    cases hk : (behave k).2 with
    | ok =>
      have h1 : (decide ((behave k).2 = KwOutcome.ok)) = true := by simp [hk]
      have h2 : (decide ((behave k).2 = KwOutcome.exn)) = false := by simp [hk]
      simp only [keywordLoop, hk, List.takeWhile_cons, h1, if_true, List.any_cons, h2,
        Bool.false_or]
      refine ⟨?_, (ih _ _).2⟩
      rw [(ih _ _).1]
      simp
    | exn =>
      have h1 : (decide ((behave k).2 = KwOutcome.ok)) = false := by simp [hk]
      have h2 : (decide ((behave k).2 = KwOutcome.exn)) = true := by simp [hk]
      simp [keywordLoop, hk, List.takeWhile_cons, h1, h2]

/-! ### Properties of the send retry loop -/

/-- With fuel left, the retry loop executes at least one attempt. -/
lemma sendGo_pos (acct : Nat) (f : Nat → AttemptOutcome) (mr attempt fuel : Nat)
    (h : 0 < fuel) : 0 < (sendGo acct f mr attempt fuel).1.length := by
  cases fuel with
  | zero => omega
  | succ fuel =>
    cases hf : f attempt with
    | success => simp [sendGo, hf]
    | connectError code =>
      by_cases hc : code = 451 ∧ attempt < mr - 1
      · simp [sendGo, hf, hc]
      · simp [sendGo, hf, hc]
    | otherError => simp [sendGo, hf]

/-- Behavior of the retry loop, for any suffix of the attempt range: it
runs at most `fuel` further attempts, all on the fixed account; attempt
`attempt + j` is followed by another attempt only if it failed with
`SMTPConnectError` status 451 while further attempts remained; and the
retry sleep runs after an attempt only when another attempt follows. -/
lemma sendGo_spec (acct : Nat) (f : Nat → AttemptOutcome) (mr : Nat) :
    ∀ (fuel attempt : Nat), attempt + fuel = mr →
    (sendGo acct f mr attempt fuel).1.length ≤ fuel ∧
    (∀ rec ∈ (sendGo acct f mr attempt fuel).1, rec.account = acct) ∧
    (∀ j, j + 1 < (sendGo acct f mr attempt fuel).1.length →
      f (attempt + j) = AttemptOutcome.connectError 451 ∧ attempt + j < mr - 1) ∧
    (∀ j rec, (sendGo acct f mr attempt fuel).1[j]? = some rec →
      rec.slept = true → j + 1 < (sendGo acct f mr attempt fuel).1.length) := by
  intro fuel
  induction fuel with
  | zero =>
    intro attempt _
    refine ⟨by simp [sendGo], by simp [sendGo], ?_, ?_⟩
    · intro j hj; simp [sendGo] at hj
    · intro j rec hj; simp [sendGo] at hj
  | succ fuel ih =>
    intro attempt hsum
    cases hf : f attempt with
    | success =>
      simp only [sendGo, hf]
      refine ⟨by simp, by simp, ?_, ?_⟩
      · intro j hj; simp at hj
      · intro j rec hj hs
        match j, hj with
        | 0, hj =>
          simp only [List.getElem?_cons_zero, Option.some_inj] at hj
          rw [← hj] at hs
          simp at hs
    | connectError code =>
      by_cases hc : code = 451 ∧ attempt < mr - 1
      · have hih := ih (attempt + 1) (by omega)
        have hfuel : 0 < fuel := by omega
        have hpos := sendGo_pos acct f mr (attempt + 1) fuel hfuel
        simp only [sendGo, hf, if_pos hc]
        refine ⟨?_, ?_, ?_, ?_⟩
        · simpa using Nat.succ_le_succ hih.1
        · intro rec hrec
          rcases List.mem_cons.mp hrec with hrec | hrec
          · rw [hrec]
          · exact hih.2.1 rec hrec
        · intro j hj
          match j with
          | 0 =>
            rw [Nat.add_zero, hf, hc.1]
            exact ⟨rfl, hc.2⟩
          | j + 1 =>
            simp only [List.length_cons] at hj
            have := hih.2.2.1 j (by omega)
            have harg : attempt + 1 + j = attempt + (j + 1) := by omega
            rw [harg] at this
            exact this
        · intro j rec hj hs
          match j with
          | 0 =>
            simp only [List.length_cons]
            omega
          | j + 1 =>
            simp only [List.getElem?_cons_succ] at hj
            have := hih.2.2.2 j rec hj hs
            simp only [List.length_cons]
            omega
      · simp only [sendGo, hf, if_neg hc]
        refine ⟨by simp, by simp, ?_, ?_⟩
        · intro j hj; simp at hj
        · intro j rec hj hs
          match j, hj with
          | 0, hj =>
            simp only [List.getElem?_cons_zero, Option.some_inj] at hj
            rw [← hj] at hs
            simp at hs
    | otherError =>
      simp only [sendGo, hf]
      refine ⟨by simp, by simp, ?_, ?_⟩
      · intro j hj; simp at hj
      · intro j rec hj hs
        match j, hj with
        | 0, hj =>
          simp only [List.getElem?_cons_zero, Option.some_inj] at hj
          rw [← hj] at hs
          simp at hs

/-! ### Properties of the account rotation -/

/-- Iterated implicit selection from any in-range cursor walks through
the accounts cyclically: the i-th selection uses the account at position
`(c + i) mod account_count`, and the cursor ends at
`(c + k) mod account_count`. -/
lemma selectMany_cycle (accs : List Nat) (h : accs ≠ []) :
    ∀ (k c : Nat), c < accs.length →
    selectMany ⟨accs, c⟩ k
      = some (((List.range k).map fun i => accs.getD ((c + i) % accs.length) 0),
          ⟨accs, (c + k) % accs.length⟩) := by
  intro k
  induction k with
  | zero =>
    intro c hc
    simp [selectMany, Nat.mod_eq_of_lt hc]
  | succ k ih =>
    intro c hc
    have hpos : 0 < accs.length := List.length_pos.mpr h
    have hget : get_next_account ⟨accs, c⟩
        = some (accs[c], ⟨accs, (c + 1) % accs.length⟩) := by
      rw [get_next_account]
      simp only [List.getElem?_eq_getElem hc]
    have hih := ih ((c + 1) % accs.length) (Nat.mod_lt _ hpos)
    simp only [selectMany, hget, hih]
    have hcur : ((c + 1) % accs.length + k) % accs.length
        = (c + (k + 1)) % accs.length := by
      rw [Nat.mod_add_mod]
      have : c + 1 + k = c + (k + 1) := by omega
      rw [this]
    have hhead : accs.getD ((c + 0) % accs.length) 0 = accs[c] := by
      rw [Nat.add_zero, Nat.mod_eq_of_lt hc, List.getD_eq_getElem?_getD,
        List.getElem?_eq_getElem hc]
      rfl
    have hlist : (List.range (k + 1)).map (fun i => accs.getD ((c + i) % accs.length) 0)
        = accs[c] :: (List.range k).map
            (fun i => accs.getD (((c + 1) % accs.length + i) % accs.length) 0) := by
      rw [List.range_succ_eq_map, List.map_cons, List.map_map, hhead]
      congr 1
      refine List.map_congr_left ?_
      intro i _
      simp only [Function.comp_apply]
      rw [Nat.mod_add_mod]
      have : c + 1 + i = c + (i + 1) := by omega
      rw [this]
    rw [hlist, hcur]

/-! ### The claims -/

/-- C1: for every raw citation sequence and article list, the
reconciliation step deduplicates the sequence preserving first-occurrence
order into `ordered_old_refs`, maps the reference of rank `rank` to
`rank + 1`, and appends, for each in-range reference in order, the
article at that position stamped with its map value; for raw refs
`[3,1,3,2]` over five articles this yields `ordered_old_refs = [3,1,2]`,
the map `{3 : 1, 1 : 2, 2 : 3}` and articles 3, 1, 2 stamped with
citation indices 1, 2, 3. -/
theorem claim_C1_reconcile :
    (∀ citations : List Nat,
      unique_ordered_old_refs citations = dedupFirstOccur citations) ∧
    (∀ (citations : List Nat) (rank old : Nat),
      (unique_ordered_old_refs citations)[rank]? = some old →
      (old_to_new_map (unique_ordered_old_refs citations)).lookup old = some (rank + 1)) ∧
    (∀ (citations : List Nat) (original : List Article),
      (processCitations citations original).sorted
        = ((unique_ordered_old_refs citations).filter (inRangeB original.length)).map
            (fun o => stamp ((original[o - 1]?).getD default)
              (((old_to_new_map (unique_ordered_old_refs citations)).lookup o).getD 0))) ∧
    (unique_ordered_old_refs [3, 1, 3, 2] = [3, 1, 2] ∧
      (old_to_new_map (unique_ordered_old_refs [3, 1, 3, 2])).lookup 3 = some 1 ∧
      (old_to_new_map (unique_ordered_old_refs [3, 1, 3, 2])).lookup 1 = some 2 ∧
      (old_to_new_map (unique_ordered_old_refs [3, 1, 3, 2])).lookup 2 = some 3 ∧
      (processCitations [3, 1, 3, 2] arts5).sorted
        = [stamp (sampleArticle 3) 1, stamp (sampleArticle 1) 2, stamp (sampleArticle 2) 3]) := by
  refine ⟨unique_ordered_old_refs_eq, ?_, ?_,
    by decide, by decide, by decide, by decide, by decide⟩
  · intro citations rank old hrk
    have := lookup_oldToNewMapFrom (unique_ordered_old_refs citations) 0 rank old
      (nodup_unique_ordered_old_refs citations) hrk
    simpa [old_to_new_map] using this
  · intro citations original
    have := sortLoop_sorted (old_to_new_map (unique_ordered_old_refs citations))
      (unique_ordered_old_refs citations) ⟨original, [], []⟩ original rfl
      (nodup_unique_ordered_old_refs citations) (fun o _ _ => rfl)
    simpa [processCitations] using this

/-- Witness for C1: the map clause instantiated at raw refs `[3,1,3,2]`,
rank 0, whose reference value is 3. -/
theorem claim_C1_witness :
    (old_to_new_map (unique_ordered_old_refs [3, 1, 3, 2])).lookup 3 = some 1 :=
  claim_C1_reconcile.2.1 [3, 1, 3, 2] 0 3 (by decide)

/-- Counterexample to C2: with five articles and the single out-of-range
citation 99, the index 99 is NOT excluded from `old_to_new_map` (it
receives new number 1), and the marker `[99]` in the rewritten body does
NOT keep its original number: it is renumbered to `[1]`. -/
theorem claim_C2_counterexample :
    ((old_to_new_map (unique_ordered_old_refs [99])).lookup 99 = some 1) ∧
    rewriteBody (old_to_new_map (unique_ordered_old_refs [99])) [Chunk.marker [99]]
      = [Chunk.marker [1]] ∧
    (Chunk.marker [1] : Chunk) ≠ Chunk.marker [99] ∧
    (processCitations [99] arts5).sorted = [] := by
  refine ⟨by decide, by decide, by decide, by decide⟩

/-- C2 amended: an out-of-range cited index is recorded as skipped and
excluded from `sorted_articles` (built from the in-range references
only), but it IS entered into `old_to_new_map` at its first-occurrence
rank like any other reference, and a marker containing it is rewritten
through the map (without raising) rather than keeping its original
number; only a number absent from the map would be kept unchanged. -/
theorem claim_C2_out_of_range :
    ∀ (citations : List Nat) (original : List Article) (old : Nat),
    (old = 0 ∨ original.length < old) → old ∈ citations →
    old ∈ (processCitations citations original).skipped ∧
    (processCitations citations original).sorted
      = ((unique_ordered_old_refs citations).filter (inRangeB original.length)).map
          (fun o => stamp ((original[o - 1]?).getD default)
            (((old_to_new_map (unique_ordered_old_refs citations)).lookup o).getD 0)) ∧
    old ∉ (unique_ordered_old_refs citations).filter (inRangeB original.length) ∧
    (((old_to_new_map (unique_ordered_old_refs citations)).lookup old).isSome = true) ∧
    replace_citation (old_to_new_map (unique_ordered_old_refs citations)) [old]
      = [((old_to_new_map (unique_ordered_old_refs citations)).lookup old).getD old] := by
  intro citations original old hrange hmem
  have hmemr : old ∈ unique_ordered_old_refs citations :=
    (mem_unique_ordered_old_refs citations old).mpr hmem
  have hnot : inRangeB original.length old = false := by
    rw [inRangeB, decide_eq_false_iff_not]
    omega
  refine ⟨?_, ?_, ?_, ?_, by simp [replace_citation]⟩
  · have hsk := sortLoop_skipped (old_to_new_map (unique_ordered_old_refs citations))
      (unique_ordered_old_refs citations) ⟨original, [], []⟩ original.length rfl
    simp only [processCitations, hsk, List.nil_append, List.mem_filter]
    exact ⟨hmemr, by simp [hnot]⟩
  · have := sortLoop_sorted (old_to_new_map (unique_ordered_old_refs citations))
      (unique_ordered_old_refs citations) ⟨original, [], []⟩ original rfl
      (nodup_unique_ordered_old_refs citations) (fun o _ _ => rfl)
    simpa [processCitations] using this
  · intro hin
    have := (List.mem_filter.mp hin).2
    rw [hnot] at this
    exact Bool.false_ne_true this
  · rw [old_to_new_map]
    exact lookup_oldToNewMapFrom_isSome (unique_ordered_old_refs citations) 0 old hmemr

/-- Witness for C2 amended: raw refs `[99]` over the five sample
articles, with 99 out of range. -/
theorem claim_C2_witness :
    99 ∈ (processCitations [99] arts5).skipped ∧
    ((old_to_new_map (unique_ordered_old_refs [99])).lookup 99).isSome = true := by
  have h := claim_C2_out_of_range [99] arts5 99 (by decide) (by decide)
  exact ⟨h.1, h.2.2.2.1⟩

/-- C3: when the extracted citation sequence is empty, the function
returns the body unchanged and the original article list itself (same
length, same order) as `sorted_articles`, every article stamped with its
1-based original position; the deduplicated reference list is empty, and
the path is total (no exception). -/
theorem claim_C3_no_citations :
    ∀ (body : List Chunk) (original : List Article),
    citations_in_order body = [] →
    process_review_and_sort_articles body original
      = ⟨body, stampAll original, stampAll original⟩ ∧
    unique_ordered_old_refs (citations_in_order body) = [] ∧
    (stampAll original).length = original.length ∧
    (∀ i : Nat, (stampAll original)[i]? = (original[i]?).map fun a => stamp a (i + 1)) := by
  intro body original h
  refine ⟨?_, ?_, length_stampAll original, fun i => getElem?_stampAll original i⟩
  · simp [process_review_and_sort_articles, h]
  · rw [h]
    rfl

/-- Witness for C3: a marker-free body over two articles. -/
theorem claim_C3_witness :
    process_review_and_sort_articles [Chunk.text "no markers here"]
        [sampleArticle 1, sampleArticle 2]
      = ⟨[Chunk.text "no markers here"], stampAll [sampleArticle 1, sampleArticle 2],
          stampAll [sampleArticle 1, sampleArticle 2]⟩ :=
  (claim_C3_no_citations [Chunk.text "no markers here"]
    [sampleArticle 1, sampleArticle 2] rfl).1

/-- Counterexample to C4: with two keywords where the first raises, the
keyword loop of `run_job` stops at once; the second keyword is never
processed, so the exception is NOT caught at the keyword-loop boundary. -/
theorem claim_C4_counterexample :
    (keywordLoop
        (fun k => ([Action.search k], if k = 1 then KwOutcome.exn else KwOutcome.ok))
        [1, 2] [] []).processed = [] ∧
    2 ∉ (keywordLoop
        (fun k => ([Action.search k], if k = 1 then KwOutcome.exn else KwOutcome.ok))
        [1, 2] [] []).processed ∧
    (keywordLoop
        (fun k => ([Action.search k], if k = 1 then KwOutcome.exn else KwOutcome.ok))
        [1, 2] [] []).errored = true := by
  refine ⟨by decide, by decide, by decide⟩

/-- C4 amended: an exception inside one keyword's processing is caught
only at the `run_job` boundary, outside the keyword loop: the processed
keywords are exactly the longest prefix whose bodies complete (keywords
after the first failing one are skipped), the loop reports an error
exactly when some keyword raises, and - whenever the guard itself
returned `False` without raising - `run_job` returns normally with
`error_occurred` set exactly when the loop errored, invoking
`mark_today_as_run` (and so possibly writing the marker) exactly
otherwise. -/
theorem claim_C4_exception_boundary :
    (∀ (behave : Nat → List Action × KwOutcome) (ks : List Nat),
      (keywordLoop behave ks [] []).processed
        = ks.takeWhile (fun k => decide ((behave k).2 = KwOutcome.ok))) ∧
    (∀ (behave : Nat → List Action × KwOutcome) (ks : List Nat),
      (keywordLoop behave ks [] []).errored
        = ks.any (fun k => decide ((behave k).2 = KwOutcome.exn))) ∧
    (∀ (m : MarkerFile) (today : Nat) (behave : Nat → List Action × KwOutcome)
        (ks : List Nat) (writeOk : Bool),
      has_run_today m today = Except.ok false →
      run_job m today behave ks writeOk
        = Except.ok ⟨(keywordLoop behave ks [] []).actions,
            if (keywordLoop behave ks [] []).errored then m
              else mark_today_as_run m today writeOk,
            (keywordLoop behave ks [] []).errored,
            !(keywordLoop behave ks [] []).errored⟩) := by
  refine ⟨?_, ?_, ?_⟩
  · intro behave ks
    rw [(keywordLoop_spec behave ks [] []).1]
    simp
  · intro behave ks
    exact (keywordLoop_spec behave ks [] []).2
  · intro m today behave ks writeOk h
    cases herr : (keywordLoop behave ks [] []).errored <;>
      simp [run_job, h, herr]

/-- Witness for C4 amended: the boundary clause on an absent marker with
one well-behaving keyword and a succeeding marker write. -/
theorem claim_C4_witness :
    run_job MarkerFile.absent 1 (fun k => ([Action.search k], KwOutcome.ok)) [1] true
      = Except.ok
          ⟨(keywordLoop (fun k => ([Action.search k], KwOutcome.ok)) [1] [] []).actions,
            if (keywordLoop (fun k => ([Action.search k], KwOutcome.ok)) [1] [] []).errored
              then MarkerFile.absent
              else mark_today_as_run MarkerFile.absent 1 true,
            (keywordLoop (fun k => ([Action.search k], KwOutcome.ok)) [1] [] []).errored,
            !(keywordLoop (fun k => ([Action.search k], KwOutcome.ok)) [1] [] []).errored⟩ :=
  claim_C4_exception_boundary.2.2 MarkerFile.absent 1
    (fun k => ([Action.search k], KwOutcome.ok)) [1] true rfl

/-- C5, settled against the code (the claim states the intended
behavior, the code deviates).  The guard returns `False`, raising
nothing, for an absent file, an unreadable file (`OSError`), invalid
JSON (`json.JSONDecodeError`), a missing `last_run_date` field
(`KeyError`) and a malformed date string (`ValueError`) - each of these
exception classes is in the tuple of main.py line 182 - and it compares
a parsed stored date with today.  BUT a marker holding valid JSON that
is not an object, or an object whose `last_run_date` is not a string,
raises `TypeError`, which the tuple omits, and the exception escapes
`run_job` because the guard call (line 219) precedes the `try`
(line 229) - contradicting the claim's "never raises" and the code's own
comment (line 183) that a corrupted marker returns `False`.  The claim's
other conjuncts hold: a second call on a day whose marker was actually
written after an error-free first call is a no-op making no provider
calls, and `mark_today_as_run` is invoked exactly on the no-error path
(its swallowed `OSError` can still leave the marker unwritten, which is
why the no-op clause conditions on the write having succeeded). -/
theorem claim_C5_daily_guard :
    (∀ today : Nat, has_run_today MarkerFile.absent today = Except.ok false) ∧
    (∀ today : Nat, has_run_today MarkerFile.unreadable today = Except.ok false) ∧
    (∀ today : Nat, has_run_today MarkerFile.invalidJson today = Except.ok false) ∧
    (∀ today : Nat,
      has_run_today (MarkerFile.parsed (JsonDoc.dict [])) today = Except.ok false) ∧
    (∀ today : Nat,
      has_run_today (MarkerFile.parsed (JsonDoc.dict
        [("last_run_date", JsonField.badStr)])) today = Except.ok false) ∧
    (∀ d today : Nat,
      has_run_today (MarkerFile.parsed (JsonDoc.dict
        [("last_run_date", JsonField.dateStr d)])) today = Except.ok (d == today)) ∧
    (∀ today : Nat,
      has_run_today (MarkerFile.parsed JsonDoc.nonDict) today
        = Except.error PyExc.typeError) ∧
    (∀ today : Nat,
      has_run_today (MarkerFile.parsed (JsonDoc.dict
        [("last_run_date", JsonField.nonStr)])) today = Except.error PyExc.typeError) ∧
    (∀ (today : Nat) (behave : Nat → List Action × KwOutcome) (ks : List Nat)
        (writeOk : Bool),
      run_job (MarkerFile.parsed JsonDoc.nonDict) today behave ks writeOk
        = Except.error PyExc.typeError) ∧
    (∀ (m : MarkerFile) (today : Nat) (behave : Nat → List Action × KwOutcome)
        (ks : List Nat) (r : RunResult) (writeOk2 : Bool),
      run_job m today behave ks true = Except.ok r → r.errorOccurred = false →
      run_job r.marker today behave ks writeOk2
        = Except.ok ⟨[], r.marker, false, false⟩) ∧
    (∀ (m : MarkerFile) (today : Nat) (behave : Nat → List Action × KwOutcome)
        (ks : List Nat) (writeOk : Bool) (r : RunResult),
      run_job m today behave ks writeOk = Except.ok r → r.marked = true →
      r.errorOccurred = false ∧ (writeOk = true → r.marker = markerWritten today)) := by
  have hw : ∀ t : Nat, has_run_today (markerWritten t) t = Except.ok true := by
    intro t
    have hbeq : (t == t) = true := beq_self_eq_true t
    calc has_run_today (markerWritten t) t = Except.ok (t == t) := rfl
      _ = Except.ok true := by rw [hbeq]
  refine ⟨fun _ => rfl, fun _ => rfl, fun _ => rfl, fun _ => rfl, fun _ => rfl,
    fun _ _ => rfl, fun _ => rfl, fun _ => rfl, fun _ _ _ _ => rfl, ?_, ?_⟩
  · intro m today behave ks r writeOk2 h1 h2
    cases hg : has_run_today m today with
    | error e =>
      simp only [run_job, hg] at h1
      exact Except.noConfusion h1
    | ok b =>
      cases b with
      | true =>
        simp only [run_job, hg] at h1
        injection h1 with h1
        subst h1
        simp [run_job, hg]
      | false =>
        simp only [run_job, hg] at h1
        cases herr : (keywordLoop behave ks [] []).errored with
        | true =>
          rw [herr, if_pos rfl] at h1
          injection h1 with h1
          subst h1
          simp at h2
        | false =>
          rw [herr, if_neg (by simp)] at h1
          injection h1 with h1
          subst h1
          show run_job (markerWritten today) today behave ks writeOk2
            = Except.ok ⟨[], markerWritten today, false, false⟩
          simp only [run_job, hw today]
  · intro m today behave ks writeOk r h1 hm
    cases hg : has_run_today m today with
    | error e =>
      simp only [run_job, hg] at h1
      exact Except.noConfusion h1
    | ok b =>
      cases b with
      | true =>
        simp only [run_job, hg] at h1
        injection h1 with h1
        subst h1
        simp at hm
      | false =>
        simp only [run_job, hg] at h1
        cases herr : (keywordLoop behave ks [] []).errored with
        | true =>
          rw [herr, if_pos rfl] at h1
          injection h1 with h1
          subst h1
          simp at hm
        | false =>
          rw [herr, if_neg (by simp)] at h1
          injection h1 with h1
          subst h1
          exact ⟨rfl, fun hw2 => by subst hw2; rfl⟩

/-- Witness for C5: a first error-free call on an absent marker with a
succeeding write, then a second call the same day, which performs no
provider calls at all. -/
theorem claim_C5_witness :
    run_job (markerWritten 1) 1 (fun k => ([Action.search k], KwOutcome.ok)) [1] true
      = Except.ok ⟨[], markerWritten 1, false, false⟩ := by
  obtain ⟨-, -, -, -, -, -, -, -, -, h10, -⟩ := claim_C5_daily_guard
  exact h10 MarkerFile.absent 1 (fun k => ([Action.search k], KwOutcome.ok)) [1]
    ⟨[Action.search 1], markerWritten 1, false, true⟩ true rfl rfl

/-- Counterexample to C6: with an empty account configuration,
`send_email` does not return normally for every account configuration:
the implicit account selection raises `ValueError` to the caller
(modelled as `none`). -/
theorem claim_C6_counterexample :
    send_email ⟨[], 0⟩ none (fun _ => AttemptOutcome.otherError) 3 = none := rfl

/-- C6 amended: provided at least one account is configured (and the
round-robin cursor is in range, the class invariant), `send_email`
returns normally in every failure case: it makes at most `max_retries`
attempts, every attempt uses the one account selected up front, a
further attempt follows attempt `j` only when that attempt failed with
`SMTPConnectError` status 451 and further attempts remained (any other
exception aborts the loop at once), and the retry sleep runs only before
such a further attempt; with no account configured, implicit selection
raises `ValueError` to the caller. -/
theorem claim_C6_send_retry :
    ∀ (st : SenderState) (accountIndex : Option Int) (f : Nat → AttemptOutcome)
      (maxRetries : Nat),
    st.accounts ≠ [] → st.cursor < st.accounts.length →
    ∃ acct tr res st1,
      send_email st accountIndex f maxRetries = some (acct, tr, res, st1) ∧
      tr.length ≤ maxRetries ∧
      (∀ rec ∈ tr, rec.account = acct) ∧
      (∀ j, j + 1 < tr.length →
        f j = AttemptOutcome.connectError 451 ∧ j < maxRetries - 1) ∧
      (∀ j rec, tr[j]? = some rec → rec.slept = true → j + 1 < tr.length) := by
  intro st accountIndex f maxRetries hne hcur
  have hget : ∃ a st2, get_next_account st = some (a, st2) := by
    refine ⟨st.accounts[st.cursor],
      ⟨st.accounts, (st.cursor + 1) % st.accounts.length⟩, ?_⟩
    rw [get_next_account]
    simp only [List.getElem?_eq_getElem hcur]
  have hsel : ∃ a st2, selectAccount st accountIndex = some (a, st2) := by
    match accountIndex with
    | none => simpa [selectAccount] using hget
    | some i =>
      by_cases hv : 0 ≤ i ∧ i < (st.accounts.length : Int)
      · exact ⟨st.accounts.getD i.toNat 0, st, by simp [selectAccount, hv]⟩
      · simpa [selectAccount, hv] using hget
  obtain ⟨acct, st1, hsel⟩ := hsel
  have hspec := sendGo_spec acct f maxRetries maxRetries 0 (by omega)
  refine ⟨acct, (sendGo acct f maxRetries 0 maxRetries).1,
    (sendGo acct f maxRetries 0 maxRetries).2, st1, ?_, hspec.1, hspec.2.1, ?_,
    hspec.2.2.2⟩
  · rw [send_email, hsel]
  · intro j hj
    have := hspec.2.2.1 j hj
    simpa using this

/-- Witness for C6 amended: one account, an immediately successful
transaction. -/
theorem claim_C6_witness :
    ∃ acct tr res st1,
      send_email ⟨[7], 0⟩ none (fun _ => AttemptOutcome.success) 3
        = some (acct, tr, res, st1) ∧
      tr.length ≤ 3 ∧
      (∀ rec ∈ tr, rec.account = acct) ∧
      (∀ j, j + 1 < tr.length →
        (fun _ => AttemptOutcome.success) j = AttemptOutcome.connectError 451 ∧
          j < 3 - 1) ∧
      (∀ j rec, tr[j]? = some rec → rec.slept = true → j + 1 < tr.length) :=
  claim_C6_send_retry ⟨[7], 0⟩ none (fun _ => AttemptOutcome.success) 3
    (by decide) (by decide)

/-- Counterexample to C7: at cursor 0 with accounts `[10, 20]`,
`get_next_account` returns the account at the CURRENT cursor (10) and then
advances, whereas the claimed rule - advance the cursor as
`cursor = (cursor + 1) mod account_count` and use that account - would
select account 20; the two selections disagree at this state. -/
theorem claim_C7_counterexample :
    get_next_account ⟨[10, 20], 0⟩ = some (10, ⟨[10, 20], 1⟩) ∧
    getNextAccountSpec ⟨[10, 20], 0⟩ = some (20, ⟨[10, 20], 1⟩) ∧
    get_next_account ⟨[10, 20], 0⟩ ≠ getNextAccountSpec ⟨[10, 20], 0⟩ := by
  refine ⟨by decide, by decide, by decide⟩

/-- C7 amended: an explicit in-range account index is used directly and
leaves the round-robin cursor unchanged; an implicit selection uses the
account at the CURRENT cursor and then advances the cursor by one modulo
the account count, so the i-th successive implicit selection from a
fresh dispatcher uses account `i mod account_count`, cycling through all
configured accounts. -/
theorem claim_C7_rotation :
    (∀ (st : SenderState) (i : Int), 0 ≤ i → i < (st.accounts.length : Int) →
      selectAccount st (some i) = some (st.accounts.getD i.toNat 0, st)) ∧
    (∀ st : SenderState, st.cursor < st.accounts.length →
      get_next_account st
        = some (st.accounts.getD st.cursor 0,
            ⟨st.accounts, (st.cursor + 1) % st.accounts.length⟩)) ∧
    (∀ (accs : List Nat) (k : Nat), accs ≠ [] →
      selectMany ⟨accs, 0⟩ k
        = some (((List.range k).map fun i => accs.getD (i % accs.length) 0),
            ⟨accs, k % accs.length⟩)) := by
  refine ⟨?_, ?_, ?_⟩
  · intro st i h1 h2
    simp [selectAccount, h1, h2]
  · intro st hc
    have hsome : st.accounts[st.cursor]? = some st.accounts[st.cursor] :=
      List.getElem?_eq_getElem hc
    rw [get_next_account, hsome, List.getD_eq_getElem?_getD, hsome]
    rfl
  · intro accs k h
    have := selectMany_cycle accs h k 0 (List.length_pos.mpr h)
    simpa using this

/-- Witness for C7 amended: three successive implicit selections over two
accounts cycle 10, 20, 10. -/
theorem claim_C7_witness :
    selectMany ⟨[10, 20], 0⟩ 3
      = some (((List.range 3).map fun i => [10, 20].getD (i % ([10, 20] : List Nat).length) 0),
          ⟨[10, 20], 3 % ([10, 20] : List Nat).length⟩) :=
  claim_C7_rotation.2.2 [10, 20] 3 (by decide)

/-- C8, evaluated at the failing input: with two articles and the cited
index sequence `[0]` (a marker `[0]` in the review), the translation
filter of `run_job` admits 0 (its guard `idx <= len(articles)` has no
lower bound) and the Python expression `articles[0 - 1]`, i.e.
`articles[-1]`, selects the LAST article, so the last article is
submitted for translation although the reconciler selects no article at
all. -/
theorem claim_C8_translation_selection :
    cited_articles [0] [sampleArticle 1, sampleArticle 2] = [some (sampleArticle 2)] ∧
    (processCitations [0] [sampleArticle 1, sampleArticle 2]).sorted = [] ∧
    some (sampleArticle 2) ∈ cited_articles [0] [sampleArticle 1, sampleArticle 2] ∧
    sampleArticle 2 ∉ (processCitations [0] [sampleArticle 1, sampleArticle 2]).sorted := by
  refine ⟨by decide, by decide, by decide, by decide⟩

/-- C9: with a nonempty account list the computed per-recipient send
delay is `max(60, floor(base_interval_minutes * 60 / account_count))`
seconds, never below one minute; with 3 accounts and a base interval of
10 minutes it is 200 seconds. -/
theorem claim_C9_interval :
    (∀ base n : Nat, 0 < n → calculated_interval base n = max 60 (base * 60 / n)) ∧
    (∀ base n : Nat, 60 ≤ calculated_interval base n) ∧
    calculated_interval 10 3 = 200 := by
  refine ⟨fun base n _ => rfl, fun base n => le_max_left _ _, by decide⟩

/-- Witness for C9: the formula clause at 10 minutes and 3 accounts. -/
theorem claim_C9_witness : calculated_interval 10 3 = max 60 (10 * 60 / 3) :=
  claim_C9_interval.1 10 3 (by decide)

/-- C10: on every input (hence on the no-citation path and on the main
path) and on the exception fallback, `process_review_and_sort_articles`
keeps the length and element order of the original article list, changes
no field other than `citation_index` on any article record, and every
element of the returned `sorted_articles` is an element of the returned
(updated) original list itself. -/
theorem claim_C10_frame :
    ∀ (body : List Chunk) (original : List Article),
    ((process_review_and_sort_articles body original).articles.length
        = original.length) ∧
    (∀ i : Nat,
      ((process_review_and_sort_articles body original).articles[i]?).map eraseCitation
        = (original[i]?).map eraseCitation) ∧
    (∀ a ∈ (process_review_and_sort_articles body original).sorted,
        a ∈ (process_review_and_sort_articles body original).articles) ∧
    ((process_review_fallback body original).articles.length = original.length) ∧
    (∀ i : Nat,
      ((process_review_fallback body original).articles[i]?).map eraseCitation
        = (original[i]?).map eraseCitation) ∧
    (∀ a ∈ (process_review_fallback body original).sorted,
        a ∈ (process_review_fallback body original).articles) := by
  intro body original
  have hstampLen : (stampAll original).length = original.length := length_stampAll original
  have hstampFrame : ∀ i : Nat, ((stampAll original)[i]?).map eraseCitation
      = (original[i]?).map eraseCitation := by
    intro i
    rw [getElem?_stampAll]
    cases original[i]? <;> simp [eraseCitation_stamp]
  by_cases h : citations_in_order body = []
  · have he : process_review_and_sort_articles body original
        = ⟨body, stampAll original, stampAll original⟩ := by
      simp [process_review_and_sort_articles, h]
    rw [he]
    exact ⟨hstampLen, hstampFrame, fun a ha => ha, hstampLen, hstampFrame,
      fun a ha => ha⟩
  · have he : process_review_and_sort_articles body original
        = ⟨rewriteBody (old_to_new_map (unique_ordered_old_refs (citations_in_order body)))
              body,
            (sortLoop (old_to_new_map (unique_ordered_old_refs (citations_in_order body)))
              ⟨original, [], []⟩ (unique_ordered_old_refs (citations_in_order body))).articles,
            (sortLoop (old_to_new_map (unique_ordered_old_refs (citations_in_order body)))
              ⟨original, [], []⟩
              (unique_ordered_old_refs (citations_in_order body))).sorted⟩ := by
      simp [process_review_and_sort_articles, h]
    rw [he]
    refine ⟨?_, ?_, ?_, hstampLen, hstampFrame, fun a ha => ha⟩
    · exact sortLoop_length _ _ ⟨original, [], []⟩
    · intro i
      exact sortLoop_frame _ _ ⟨original, [], []⟩ i
    · intro a ha
      exact sortLoop_mem _ _ ⟨original, [], []⟩
        (nodup_unique_ordered_old_refs (citations_in_order body))
        (fun a2 ha2 => absurd ha2 (List.not_mem_nil a2)) a ha

/-- Witness for C10: the membership clause at a body citing article 2 of
two articles - the stamped article of `sorted_articles` is a member of
the updated original list. -/
theorem claim_C10_witness :
    stamp (sampleArticle 2) 1
      ∈ (process_review_and_sort_articles [Chunk.marker [2]]
          [sampleArticle 1, sampleArticle 2]).articles :=
  (claim_C10_frame [Chunk.marker [2]] [sampleArticle 1, sampleArticle 2]).2.2.1
    (stamp (sampleArticle 2) 1) (by decide)

end PubMedPush

